import Mathlib

/-!
Verification of the Zwift Ride key-trigger program (`app.py`): a shallow
embedding of the frame decoder (`parse_button_state`, `parse_key_press`,
`parse_key_group`, `parse_analog_message`), of the stateful dispatcher
(`trigger_keystrokes`) and of the notification handler
(`notification_handler`), together with theorems about them.

Modelling conventions:
* Python byte strings become `List ℕ` (each element a byte value).
* Python's `time.time()` value and the 0.2 s repeat delay become exact
  rationals (`ℚ`), passed explicitly.
* A Python `IndexError` (out-of-range subscript) is modelled with
  `Except PyErr`; the blanket `try/except` of `notification_handler`
  is modelled by catching every such error at handler level.
* Python sets are modelled as lists without duplicates, iterated in a
  fixed canonical order (Python set iteration order is unspecified).
* The cursor-based loops of `parse_key_press` / `parse_key_group` only
  ever read at or after the cursor, so they are embedded as loops that
  consume the buffer from the front; every iteration consumes at least
  the tag byte, so `buffer.length + 1` iterations always suffice and the
  fuel parameter of the embedding is never exhausted when the wrappers
  below are used (on exhaustion the embedding returns the data collected
  so far, never an error, so every `.error` result is a genuine
  `IndexError` of the source).
* The `while` loop scanning analog sub-messages in `notification_handler`
  can genuinely fail to terminate, so it takes explicit fuel and
  returns `none` in its second component when the fuel runs out.
-/

namespace ZwiftRide

/-- The 16 logical buttons of `BUTTON_MASKS` (app.py lines 31-48). -/
inductive Button
  | LEFT_BTN | UP_BTN | RIGHT_BTN | DOWN_BTN
  | A_BTN | B_BTN | Y_BTN | Z_BTN
  | SHFT_UP_L_BTN | SHFT_DN_L_BTN | POWERUP_L_BTN | ONOFF_L_BTN
  | SHFT_UP_R_BTN | SHFT_DN_R_BTN | POWERUP_R_BTN | ONOFF_R_BTN
deriving DecidableEq

/-- Enumeration-table order of the buttons (insertion order of the
`BUTTON_MASKS` dict in app.py). -/
def allButtons : List Button :=
  [.LEFT_BTN, .UP_BTN, .RIGHT_BTN, .DOWN_BTN,
   .A_BTN, .B_BTN, .Y_BTN, .Z_BTN,
   .SHFT_UP_L_BTN, .SHFT_DN_L_BTN, .POWERUP_L_BTN, .ONOFF_L_BTN,
   .SHFT_UP_R_BTN, .SHFT_DN_R_BTN, .POWERUP_R_BTN, .ONOFF_R_BTN]

/-- The single-bit mask of each button (values of `BUTTON_MASKS`,
app.py lines 31-48). -/
def buttonMask : Button → ℕ
  | .LEFT_BTN => 0x1
  | .UP_BTN => 0x2
  | .RIGHT_BTN => 0x4
  | .DOWN_BTN => 0x8
  | .A_BTN => 0x10
  | .B_BTN => 0x20
  | .Y_BTN => 0x40
  | .Z_BTN => 0x100
  | .SHFT_UP_L_BTN => 0x200
  | .SHFT_DN_L_BTN => 0x400
  | .POWERUP_L_BTN => 0x800
  | .ONOFF_L_BTN => 0x1000
  | .SHFT_UP_R_BTN => 0x2000
  | .SHFT_DN_R_BTN => 0x4000
  | .POWERUP_R_BTN => 0x10000
  | .ONOFF_R_BTN => 0x20000

/-- The `BUTTON_MASKS` dict (app.py lines 31-48) as a list of
(button, mask) pairs in insertion order. -/
def BUTTON_MASKS : List (Button × ℕ) :=
  [(.LEFT_BTN, 0x1), (.UP_BTN, 0x2), (.RIGHT_BTN, 0x4), (.DOWN_BTN, 0x8),
   (.A_BTN, 0x10), (.B_BTN, 0x20), (.Y_BTN, 0x40), (.Z_BTN, 0x100),
   (.SHFT_UP_L_BTN, 0x200), (.SHFT_DN_L_BTN, 0x400),
   (.POWERUP_L_BTN, 0x800), (.ONOFF_L_BTN, 0x1000),
   (.SHFT_UP_R_BTN, 0x2000), (.SHFT_DN_R_BTN, 0x4000),
   (.POWERUP_R_BTN, 0x10000), (.ONOFF_R_BTN, 0x20000)]

/-- The `DEFAULT_KEY_MAPPING` dict of app.py lines 51-68. -/
def DEFAULT_KEY_MAPPING : Button → Option String
  | .LEFT_BTN => some "left"
  | .UP_BTN => some "up"
  | .RIGHT_BTN => some "right"
  | .DOWN_BTN => some "down"
  | .A_BTN => some "a"
  | .B_BTN => some "b"
  | .Y_BTN => some "y"
  | .Z_BTN => some "z"
  | .SHFT_UP_L_BTN => some "w"
  | .SHFT_DN_L_BTN => some "s"
  | .POWERUP_L_BTN => some "space"
  | .ONOFF_L_BTN => some "escape"
  | .SHFT_UP_R_BTN => some "page up"
  | .SHFT_DN_R_BTN => some "page down"
  | .POWERUP_R_BTN => some "p"
  | .ONOFF_R_BTN => some "enter"

/-- `parse_button_state` (app.py lines 270-277): a button is appended to
the pressed list iff its mask bit is 0 in `button_map` (inverted
polarity). -/
def parse_button_state (button_map : ℕ) : List Button :=
  BUTTON_MASKS.filterMap fun p =>
    if button_map &&& p.2 = 0 then some p.1 else none

/-- Python failure kinds the decoder can raise; the only one the source
can produce is an out-of-range subscript (`IndexError`). -/
inductive PyErr
  | indexError
deriving DecidableEq

deriving instance DecidableEq for Except

/-- Result dict of `parse_key_press` (app.py line 326): `location` and
`value` are `None` until their field is seen. -/
structure KeyPress where
  location : Option ℕ
  value : Option ℤ
deriving DecidableEq

/-- The zigzag decoding expression of app.py line 314:
`(value >> 1) ^ (-(value & 1))`, evaluated on Python's unbounded
integers. -/
def zigzag_decode (value : ℕ) : ℤ :=
  Int.xor ((value >>> 1 : ℕ) : ℤ) (-((value &&& 1 : ℕ) : ℤ))

/-- Modelled from the spec: the zigzag encoding of a signed integer
(glossary and §8 of the spec; `zigzag_encode` appears in no source file).
Non-negative `v` maps to `2*v`, negative `v` maps to `-2*v - 1`, which
realises the spec's examples `0↦0, -1↦1, 1↦2, -2↦3`. -/
def zigzag_encode (v : ℤ) : ℕ :=
  if 0 ≤ v then (2 * v).toNat else (2 * (-v) - 1).toNat

/-- The varint-reading loop used for fields 1 and 2 of `parse_key_press`
(app.py lines 292-301 and 304-312): accumulates 7 bits per byte, raising
`IndexError` when the buffer ends before a byte with the high bit clear. -/
def readVarint : List ℕ → ℕ → ℕ → Except PyErr (ℕ × List ℕ)
  | [], _, _ => .error .indexError
  | byte :: rest, value, shift =>
    let value := value ||| ((byte &&& 0x7f) <<< shift)
    if byte &&& 0x80 = 0 then .ok (value, rest)
    else readVarint rest value (shift + 7)

/-- The unknown-varint skip of `parse_key_press` (app.py lines 318-321):
`while buffer[offset] & 0x80: offset += 1` reads without a bounds check,
so it raises `IndexError` at the end of the buffer. -/
def skipVarintUnchecked : List ℕ → Except PyErr (List ℕ)
  | [] => .error .indexError
  | byte :: rest =>
    if byte &&& 0x80 = 0 then .ok rest else skipVarintUnchecked rest

/-- The unknown-varint skip of `parse_key_group` (app.py lines 352-356),
which is bounds-checked and therefore total. -/
def skipVarint : List ℕ → List ℕ
  | [] => []
  | byte :: rest =>
    if byte &&& 0x80 = 0 then rest else skipVarint rest

/-- Loop body of `parse_key_press` (app.py lines 285-324), consuming the
buffer from the front. Every iteration consumes at least the tag byte;
when the fuel runs out the fields collected so far are returned, so an
`.error` result always corresponds to a genuine `IndexError`. -/
def parse_key_press_go : ℕ → List ℕ → Option ℕ → Option ℤ → Except PyErr KeyPress
  | _, [], location, analog_value => .ok ⟨location, analog_value⟩
  | 0, _ :: _, location, analog_value => .ok ⟨location, analog_value⟩
  | fuel + 1, tag :: rest, location, analog_value =>
    let field_num := tag >>> 3
    let wire_type := tag &&& 0x7
    if field_num = 1 ∧ wire_type = 0 then
      match readVarint rest 0 0 with
      | .error e => .error e
      | .ok vr => parse_key_press_go fuel vr.2 (some vr.1) analog_value
    else if field_num = 2 ∧ wire_type = 0 then
      match readVarint rest 0 0 with
      | .error e => .error e
      | .ok vr => parse_key_press_go fuel vr.2 location (some (zigzag_decode vr.1))
    else if wire_type = 0 then
      match skipVarintUnchecked rest with
      | .error e => .error e
      | .ok rest2 => parse_key_press_go fuel rest2 location analog_value
    else if wire_type = 2 then
      match rest with
      | [] => .error .indexError
      | len :: rest2 => parse_key_press_go fuel (rest2.drop len) location analog_value
    else
      parse_key_press_go fuel rest location analog_value

/-- `parse_key_press` (app.py lines 279-326). -/
def parse_key_press (buffer : List ℕ) : Except PyErr KeyPress :=
  parse_key_press_go (buffer.length + 1) buffer none none

/-- Assignment `group_status[location] = value` into the Python dict of
`parse_key_group` (app.py line 346): later assignments override. -/
def dictInsert (d : List (ℕ × Option ℤ)) (k : ℕ) (v : Option ℤ) : List (ℕ × Option ℤ) :=
  d.filter (fun p => p.1 ≠ k) ++ [(k, v)]

/-- Python's `dict.get(k, dflt)` on the group-status dict. -/
def dictGet (d : List (ℕ × Option ℤ)) (k : ℕ) (dflt : Option ℤ) : Option ℤ :=
  match d with
  | [] => dflt
  | p :: rest => if p.1 = k then p.2 else dictGet rest k dflt

/-- Loop body of `parse_key_group` (app.py lines 333-360), consuming the
buffer from the front, with the same fuel convention as
`parse_key_press_go`. The field-3 branch reads the length byte without a
bounds check (`length = buffer[offset]`, line 340), the skip branches are
bounds-checked. -/
def parse_key_group_go : ℕ → List ℕ → List (ℕ × Option ℤ) → Except PyErr (List (ℕ × Option ℤ))
  | _, [], group_status => .ok group_status
  | 0, _ :: _, group_status => .ok group_status
  | fuel + 1, tag :: rest, group_status =>
    let field_num := tag >>> 3
    let wire_type := tag &&& 0x7
    if field_num = 3 ∧ wire_type = 2 then
      match rest with
      | [] => .error .indexError
      | len :: rest2 =>
        match parse_key_press (rest2.take len) with
        | .error e => .error e
        | .ok res =>
          parse_key_group_go fuel (rest2.drop len)
            (match res.location with
             | some loc => dictInsert group_status loc res.value
             | none => group_status)
    else if wire_type = 0 then
      parse_key_group_go fuel (skipVarint rest) group_status
    else if wire_type = 2 then
      match rest with
      | [] => .ok group_status
      | len :: rest2 => parse_key_group_go fuel (rest2.drop len) group_status
    else
      parse_key_group_go fuel rest group_status

/-- `parse_key_group` (app.py lines 328-362). -/
def parse_key_group (buffer : List ℕ) : Except PyErr (List (ℕ × Option ℤ)) :=
  parse_key_group_go (buffer.length + 1) buffer []

/-- Result dict of `parse_analog_message` (app.py lines 370-374). -/
structure AnalogData where
  left : Option ℤ
  right : Option ℤ
  next_index : ℕ
deriving DecidableEq

/-- `parse_analog_message` (app.py lines 364-374): `.ok none` models the
Python `None` return for a missing/foreign sub-message; the
`next_index` field is always the full length of the input slice. -/
def parse_analog_message (data : List ℕ) : Except PyErr (Option AnalogData) :=
  match data with
  | [] => .ok none
  | b :: _ =>
    if b = 0x1a then
      match parse_key_group data with
      | .error e => .error e
      | .ok res => .ok (some ⟨dictGet res 0 (some 0), dictGet res 1 (some 0), data.length⟩)
    else .ok none

/-- A key action performed through the `keyboard` module. -/
inductive Action
  | press (key : String)
  | release (key : String)
deriving DecidableEq

/-- The output key named by an action. -/
def keyOf : Action → String
  | .press k => k
  | .release k => k

/-- The mutable dispatcher state of `ZwiftRideController`:
`pressed_buttons`, `active_keys` (both Python sets, modelled as
duplicate-free lists in canonical order) and `last_press_time`
(a dict from button to monotonic time). -/
structure DState where
  pressed_buttons : List Button
  active_keys : List String
  last_press_time : List (Button × ℚ)
deriving DecidableEq

/-- Python `set.add` on the active-key set. -/
def setAdd (l : List String) (k : String) : List String :=
  if k ∈ l then l else l ++ [k]

/-- Python `set.remove` on the active-key set (always called behind a
membership guard in the source). -/
def setRemove (l : List String) (k : String) : List String :=
  l.erase k

/-- `self.last_press_time.get(b)` lookup. -/
def lptGet (d : List (Button × ℚ)) (b : Button) : Option ℚ :=
  match d with
  | [] => none
  | p :: rest => if p.1 = b then some p.2 else lptGet rest b

/-- `self.last_press_time[b] = t` dict assignment. -/
def lptSet (d : List (Button × ℚ)) (b : Button) (t : ℚ) : List (Button × ℚ) :=
  (b, t) :: d.filter (fun p => p.1 ≠ b)

/-- Body of the still-pressed/repeat loop of `trigger_keystrokes`
(app.py lines 383-400) for one button: below the repeat threshold
nothing happens; at or above it the key is released first when active,
then pressed, marked active and its timestamp updated. -/
def repeatStep (km : Button → Option String) (repeat_delay now : ℚ)
    (s : DState) (b : Button) : DState × List Action :=
  match km b with
  | none => (s, [])
  | some key =>
    let last_time := (lptGet s.last_press_time b).getD 0
    if repeat_delay ≤ now - last_time then
      if key ∈ s.active_keys then
        ({ s with
            active_keys := setAdd (setRemove s.active_keys key) key,
            last_press_time := lptSet s.last_press_time b now },
         [Action.release key, Action.press key])
      else
        ({ s with
            active_keys := setAdd s.active_keys key,
            last_press_time := lptSet s.last_press_time b now },
         [Action.press key])
    else (s, [])

/-- Body of the newly-pressed loop of `trigger_keystrokes`
(app.py lines 404-410) for one button. -/
def pressStep (km : Button → Option String) (now : ℚ)
    (s : DState) (b : Button) : DState × List Action :=
  match km b with
  | none => (s, [])
  | some key =>
    ({ s with
        active_keys := setAdd s.active_keys key,
        last_press_time := lptSet s.last_press_time b now },
     [Action.press key])

/-- Body of the newly-released loop of `trigger_keystrokes`
(app.py lines 414-420) for one button. -/
def releaseStep (km : Button → Option String)
    (s : DState) (b : Button) : DState × List Action :=
  match km b with
  | none => (s, [])
  | some key =>
    ({ s with
        active_keys :=
          if key ∈ s.active_keys then setRemove s.active_keys key
          else s.active_keys },
     [Action.release key])

/-- One `for` loop of `trigger_keystrokes`: fold the per-button body over
the iterated set, threading state and concatenating emitted actions. -/
def phaseFold (step : DState → Button → DState × List Action) :
    DState → List Button → DState × List Action
  | s, [] => (s, [])
  | s, b :: rest =>
    let r1 := step s b
    let r2 := phaseFold step r1.1 rest
    (r2.1, r1.2 ++ r2.2)

/-- `trigger_keystrokes` (app.py lines 376-423): three passes
(still-pressed, newly pressed, newly released) over the set difference
partitions, followed by the wholesale update of `pressed_buttons`.
`set(buttons)` is modelled by `List.dedup`; the three iterated sets are
in canonical order. -/
def trigger_keystrokes (km : Button → Option String) (repeat_delay now : ℚ)
    (s : DState) (buttons : List Button) : DState × List Action :=
  let current_buttons := buttons.dedup
  let r1 := phaseFold (repeatStep km repeat_delay now) s
      (current_buttons.filter (fun b => b ∈ s.pressed_buttons))
  let r2 := phaseFold (pressStep km now) r1.1
      (current_buttons.filter (fun b => b ∉ s.pressed_buttons))
  let r3 := phaseFold (releaseStep km) r2.1
      (s.pressed_buttons.filter (fun b => b ∉ current_buttons))
  ({ r3.1 with pressed_buttons := current_buttons },
   r1.2 ++ r2.2 ++ r3.2)

/-- The analog-scanning `while` loop of `notification_handler`
(app.py lines 240-247): first component counts successful
`parse_analog_message` calls, second component is `none` when the fuel
runs out (the loop genuinely need not terminate), otherwise the
`Except` outcome of the scan. The next start index is the
`next_index` entry of the parsed dict. -/
def analogLoop (data : List ℕ) : ℕ → ℕ → ℕ × Option (Except PyErr Unit)
  | _, 0 => (0, none)
  | start_index, fuel + 1 =>
    if start_index < data.length then
      match parse_analog_message (data.drop start_index) with
      | .error e => (0, some (.error e))
      | .ok none => (0, some (.ok ()))
      | .ok (some analog_data) =>
        let r := analogLoop data analog_data.next_index fuel
        (r.1 + 1, r.2)
    else (0, some (.ok ()))

/-- The button-status part of `notification_handler` (app.py lines
231-237): reassemble the 32-bit little-endian bitmask from bytes 2..5,
decode the pressed set and, only when that set is non-empty, run
`trigger_keystrokes`. -/
def handlerButtonPart (km : Button → Option String) (repeat_delay now : ℚ)
    (s : DState) (data : List ℕ) : DState × List Action :=
  let button_map :=
    data.getD 2 0 ||| (data.getD 3 0 <<< 8) ||| (data.getD 4 0 <<< 16) |||
      (data.getD 5 0 <<< 24)
  let pressed_buttons := parse_button_state button_map
  if pressed_buttons ≠ [] then
    trigger_keystrokes km repeat_delay now s pressed_buttons
  else (s, [])

/-- `notification_handler` (app.py lines 226-268). All Python failures
inside the body are caught by the blanket `except` (line 267), keeping
whatever state mutations already happened; a result of `none` means the
analog loop exhausted its fuel (potential non-termination of the
source). Message types: 0x23 button status, 0x2a initial status,
0x15 idle, 0x19 status update, anything else logged and ignored. -/
def notification_handler (fuel : ℕ) (km : Button → Option String)
    (repeat_delay now : ℚ) (s : DState) (data : List ℕ) :
    Option (DState × List Action) :=
  match data with
  | [] => some (s, [])
  | msg_type :: _ =>
    if msg_type = 0x23 then
      if 6 ≤ data.length then
        let r := handlerButtonPart km repeat_delay now s data
        match (analogLoop data 7 fuel).2 with
        | none => none
        | some _ => some r
      else some (s, [])
    else if msg_type = 0x2a then some (s, [])
    else if msg_type = 0x15 then
      if s.active_keys ≠ [] then
        some ({ pressed_buttons := [], active_keys := [],
                last_press_time := s.last_press_time },
              s.active_keys.map Action.release)
      else some (s, [])
    else some (s, [])

/-! ## Helper lemmas -/

/-- Every button occurs in the enumeration table. -/
theorem mem_allButtons (b : Button) : b ∈ allButtons := by
  cases b <;> decide

/-- The masks table is the enumeration table paired with each button's
mask. -/
theorem BUTTON_MASKS_eq_map :
    BUTTON_MASKS = allButtons.map (fun x => (x, buttonMask x)) := by
  decide

/-- A (button, mask) pair belongs to `BUTTON_MASKS` exactly when the mask
is the button's mask. -/
theorem mask_mem_iff (b : Button) (mask : ℕ) :
    (b, mask) ∈ BUTTON_MASKS ↔ mask = buttonMask b := by
  rw [BUTTON_MASKS_eq_map]
  constructor
  · intro h
    obtain ⟨x, _, hx⟩ := List.mem_map.mp h
    injection hx with h1 h2
    subst h1
    exact h2.symm
  · rintro rfl
    exact List.mem_map.mpr ⟨b, mem_allButtons b, rfl⟩

/-- `Int.xor` of a natural number with 0. -/
theorem int_xor_zero (a : ℕ) : Int.xor (a : ℤ) 0 = (a : ℤ) := by
  have h : Int.xor (Int.ofNat a) (Int.ofNat 0) = Int.ofNat (a ^^^ 0) := rfl
  simpa [Nat.xor_zero] using h

/-- `Int.xor` of a natural number with -1 is two's-complement negation. -/
theorem int_xor_neg_one (a : ℕ) : Int.xor (a : ℤ) (-1) = Int.negSucc a := by
  have h : Int.xor (Int.ofNat a) (Int.negSucc 0) = Int.negSucc (a ^^^ 0) := rfl
  have h1 : (-1 : ℤ) = Int.negSucc 0 := rfl
  rw [h1]
  simpa [Nat.xor_zero] using h

/-- A key just added with `setAdd` is in the set. -/
theorem mem_setAdd (l : List String) (k : String) : k ∈ setAdd l k := by
  unfold setAdd
  split
  · assumption
  · simp

/-- Looking up the button just stamped with `lptSet` yields the new time. -/
theorem lptGet_lptSet_self (d : List (Button × ℚ)) (b : Button) (t : ℚ) :
    lptGet (lptSet d b t) b = some t := by
  simp [lptSet, lptGet]

/-- An analog-scan error implies the scan attempted a parse, so the start
offset was inside the frame. -/
theorem analogLoop_error_lt (data : List ℕ) (start fuel : ℕ) (e : PyErr)
    (h : (analogLoop data start fuel).2 = some (.error e)) :
    start < data.length := by
  cases fuel with
  | zero => simp [analogLoop] at h
  | succ fuel =>
    by_cases hs : start < data.length
    · exact hs
    · rw [analogLoop, if_neg hs] at h
      simp at h

/-! ## Claims -/

/-- C1 (code bug): with previous pressed set `{A_BTN}` (key "a" active and
mapped) and a ButtonStatus frame whose bitmask `0xFFFFFFFF` decodes to the
empty pressed set, `notification_handler` emits no action at all and
leaves the dispatcher state unchanged, because it only calls
`trigger_keystrokes` when the decoded set is non-empty; had
`trigger_keystrokes` been called with the empty current set it would have
emitted exactly `Release("a")`, as the claim demands. -/
theorem c1_empty_frame_skips_release :
    notification_handler 1 DEFAULT_KEY_MAPPING (1/5) 1
        ⟨[Button.A_BTN], ["a"], [(Button.A_BTN, 0)]⟩
        [0x23, 0x00, 0xFF, 0xFF, 0xFF, 0xFF]
      = some (⟨[Button.A_BTN], ["a"], [(Button.A_BTN, 0)]⟩, []) ∧
    (trigger_keystrokes DEFAULT_KEY_MAPPING (1/5) 1
        ⟨[Button.A_BTN], ["a"], [(Button.A_BTN, 0)]⟩ []).2
      = [Action.release "a"] := by
  constructor <;> decide

/-- C2 counterexample: an Idle frame received while `ActiveKeySet` is
empty but `PressedButtonSet` is `{A_BTN}` leaves `PressedButtonSet`
untouched (still `{A_BTN}`), refuting the claim that after an Idle frame
both sets are empty for every prior dispatcher state. -/
theorem c2_counterexample :
    notification_handler 1 DEFAULT_KEY_MAPPING (1/5) 0
        ⟨[Button.A_BTN], [], []⟩ [0x15]
      = some (⟨[Button.A_BTN], [], []⟩, []) := by
  decide

/-- C2 (amended): on an Idle frame (leading byte 0x15) a Release is
emitted for exactly the keys of `ActiveKeySet` and afterwards
`ActiveKeySet` is empty; `PressedButtonSet` is cleared when
`ActiveKeySet` was non-empty and left unchanged otherwise (in particular,
with no active keys zero actions are emitted and the state is
unchanged). -/
theorem c2_idle_amended (fuel : ℕ) (km : Button → Option String)
    (repeat_delay now : ℚ) (s : DState) (data : List ℕ)
    (h : data.head? = some 0x15) :
    notification_handler fuel km repeat_delay now s data
      = some ((if s.active_keys = [] then s
               else ⟨[], [], s.last_press_time⟩),
              s.active_keys.map Action.release) := by
  match data with
  | [] => simp at h
  | msg :: rest =>
    have hmsg : msg = 0x15 := by simpa using h
    subst hmsg
    simp only [notification_handler]
    norm_num
    by_cases ha : s.active_keys = []
    · simp [ha]
    · simp [ha]

/-- C2 witness: idle with `{w, space}` active releases both keys and
clears both sets. -/
theorem c2_idle_amended_witness :
    ([0x15] : List ℕ).head? = some 0x15 ∧
    notification_handler 1 DEFAULT_KEY_MAPPING (1/5) 0
        ⟨[Button.SHFT_UP_L_BTN, Button.POWERUP_L_BTN], ["w", "space"], []⟩
        [0x15]
      = some (⟨[], [], []⟩, [Action.release "w", Action.release "space"]) :=
  ⟨rfl, by
    simpa using c2_idle_amended 1 DEFAULT_KEY_MAPPING (1/5) 0
      ⟨[Button.SHFT_UP_L_BTN, Button.POWERUP_L_BTN], ["w", "space"], []⟩
      [0x15] rfl⟩

/-- C3 counterexample: `parse_key_press` on the buffer `[0x08, 0x80]`
(field 1, varint wire type, followed by a continuation byte with nothing
after it) raises an uncaught `IndexError` instead of returning a result,
refuting the claim that the decoding functions never raise. -/
theorem c3_counterexample :
    parse_key_press [0x08, 0x80] = .error .indexError := by
  decide

/-- C3 (amended): the nested decoding functions can raise `IndexError` on
truncated input, but `notification_handler` catches every such failure:
whenever the analog scan terminates (its fuel is not exhausted),
processing a frame returns normally, so malformed input degrades to no
actionable data at frame level instead of crashing the stream. -/
theorem c3_failures_contained (fuel : ℕ) (km : Button → Option String)
    (repeat_delay now : ℚ) (s : DState) (data : List ℕ)
    (h : (analogLoop data 7 fuel).2 ≠ none) :
    ∃ r, notification_handler fuel km repeat_delay now s data = some r := by
  match data with
  | [] => exact ⟨_, rfl⟩
  | msg :: rest =>
    simp only [notification_handler]
    by_cases h23 : msg = 0x23
    · subst h23
      rw [if_pos (show ((0x23 : ℕ) = 0x23) from rfl)]
      by_cases h6 : 6 ≤ ((0x23 : ℕ) :: rest).length
      · rw [if_pos h6]
        refine ⟨handlerButtonPart km repeat_delay now s ((0x23 : ℕ) :: rest), ?_⟩
        cases hL : (analogLoop ((0x23 : ℕ) :: rest) 7 fuel).2 with
        | none => exact absurd hL h
        | some out => simp [hL]
      · rw [if_neg h6]
        exact ⟨_, rfl⟩
    · rw [if_neg h23]
      split_ifs <;> exact ⟨_, rfl⟩

/-- C3 witness: a ButtonStatus frame whose analog payload contains a
truncated varint makes the analog scan fail with `IndexError`, yet the
handler still returns normally. -/
theorem c3_failures_contained_witness :
    (analogLoop [0x23, 0x00, 0xFE, 0xFF, 0xFF, 0xFF, 0x00,
        0x1a, 0x02, 0x08, 0x80] 7 5).2 ≠ none ∧
    ∃ r, notification_handler 5 DEFAULT_KEY_MAPPING (1/5) 0 ⟨[], [], []⟩
        [0x23, 0x00, 0xFE, 0xFF, 0xFF, 0xFF, 0x00, 0x1a, 0x02, 0x08, 0x80]
      = some r :=
  ⟨by decide, c3_failures_contained 5 DEFAULT_KEY_MAPPING (1/5) 0
    ⟨[], [], []⟩ _ (by decide)⟩

/-- C4: for every 32-bit bitmask and every enumerated button,
`parse_button_state` reports the button pressed iff its mask bit is 0
(inverted polarity), and the mask `0xFFFFFFFE` decodes to exactly
`{LEFT_BTN}`. -/
theorem c4_bit_inversion :
    (∀ (m : ℕ) (b : Button),
      b ∈ parse_button_state m ↔ m &&& buttonMask b = 0)
    ∧ parse_button_state 0xFFFFFFFE = [Button.LEFT_BTN] := by
  constructor
  · intro m b
    constructor
    · intro h
      simp only [parse_button_state, List.mem_filterMap] at h
      obtain ⟨p, hp, hf⟩ := h
      by_cases hm : m &&& p.2 = 0
      · rw [if_pos hm] at hf
        obtain rfl := Option.some.inj hf
        have hmask : p.2 = buttonMask p.1 :=
          (mask_mem_iff p.1 p.2).mp (by simpa using hp)
        rwa [hmask] at hm
      · rw [if_neg hm] at hf
        exact absurd hf (by simp)
    · intro h
      have hmem : (b, buttonMask b) ∈ BUTTON_MASKS :=
        (mask_mem_iff b (buttonMask b)).mpr rfl
      simp only [parse_button_state, List.mem_filterMap]
      exact ⟨(b, buttonMask b), hmem, by rw [if_pos h]⟩
  · decide

/-- C5: a mapped button is iterated by the still-pressed pass exactly when
it is in both the current and the previous pressed set; the repeat pass
of `trigger_keystrokes` contributes the first actions of the update; and
for one such button, if `now - last ≥ repeat_delay` the step emits
`Release(key)` first when the key is active followed by `Press(key)`,
marks the key active and stamps the button with `now`, while below the
threshold it emits nothing and changes nothing. -/
theorem c5_repeat_gate :
    (∀ (s : DState) (buttons : List Button) (b : Button),
        b ∈ buttons.dedup.filter (fun x => x ∈ s.pressed_buttons)
          ↔ b ∈ buttons ∧ b ∈ s.pressed_buttons)
    ∧ (∀ (km : Button → Option String) (repeat_delay now : ℚ) (s : DState)
        (buttons : List Button),
        ∃ rest, (trigger_keystrokes km repeat_delay now s buttons).2
          = (phaseFold (repeatStep km repeat_delay now) s
              (buttons.dedup.filter (fun x => x ∈ s.pressed_buttons))).2
            ++ rest)
    ∧ (∀ (km : Button → Option String) (repeat_delay now : ℚ) (s : DState)
        (b : Button) (key : String), km b = some key →
        (repeat_delay ≤ now - (lptGet s.last_press_time b).getD 0 →
          (repeatStep km repeat_delay now s b).2
            = (if key ∈ s.active_keys
               then [Action.release key, Action.press key]
               else [Action.press key])
          ∧ lptGet (repeatStep km repeat_delay now s b).1.last_press_time b
              = some now
          ∧ key ∈ (repeatStep km repeat_delay now s b).1.active_keys)
        ∧ (now - (lptGet s.last_press_time b).getD 0 < repeat_delay →
            repeatStep km repeat_delay now s b = (s, []))) := by
  refine ⟨?_, ?_, ?_⟩
  · intro s buttons b
    simp [List.mem_filter, List.mem_dedup]
  · intro km repeat_delay now s buttons
    exact ⟨_, List.append_assoc _ _ _⟩
  · intro km repeat_delay now s b key hkm
    constructor
    · intro hge
      simp only [repeatStep, hkm]
      rw [if_pos hge]
      split_ifs with hact
      · exact ⟨rfl, lptGet_lptSet_self _ _ _, mem_setAdd _ _⟩
      · exact ⟨rfl, lptGet_lptSet_self _ _ _, mem_setAdd _ _⟩
    · intro hlt
      simp only [repeatStep, hkm]
      rw [if_neg (not_le.mpr hlt)]

/-- C5 witness: the spec's repeat-cadence scenario at t = 0.22 s with
`UP_BTN` mapped to "up", last press at t = 0 and "up" active: the step
emits `Release(up)` then `Press(up)` and stamps the button with 0.22. -/
theorem c5_repeat_gate_witness :
    DEFAULT_KEY_MAPPING Button.UP_BTN = some "up" ∧
    (1 : ℚ)/5 ≤ 11/50 - (lptGet [(Button.UP_BTN, 0)] Button.UP_BTN).getD 0 ∧
    (repeatStep DEFAULT_KEY_MAPPING (1/5) (11/50)
        ⟨[Button.UP_BTN], ["up"], [(Button.UP_BTN, 0)]⟩ Button.UP_BTN).2
      = [Action.release "up", Action.press "up"] ∧
    lptGet (repeatStep DEFAULT_KEY_MAPPING (1/5) (11/50)
        ⟨[Button.UP_BTN], ["up"], [(Button.UP_BTN, 0)]⟩
        Button.UP_BTN).1.last_press_time Button.UP_BTN = some (11/50) := by
  have hle : (1 : ℚ)/5 ≤ 11/50 - (lptGet [(Button.UP_BTN, 0)] Button.UP_BTN).getD 0 := by
    norm_num [lptGet]
  have h := (c5_repeat_gate.2.2 DEFAULT_KEY_MAPPING (1/5) (11/50)
      ⟨[Button.UP_BTN], ["up"], [(Button.UP_BTN, 0)]⟩ Button.UP_BTN "up"
      rfl).1 hle
  refine ⟨rfl, hle, ?_, h.2.1⟩
  rw [h.1]
  simp

/-- C7: when the analog scan of a ButtonStatus frame fails (for instance
on a varint that never terminates inside the buffer), the handler still
returns normally with exactly the state and actions produced by the
button part of the frame: keystrokes already dispatched earlier in the
frame remain in effect and the failure does not escape the handler. -/
theorem c7_varint_failure_contained (fuel : ℕ) (km : Button → Option String)
    (repeat_delay now : ℚ) (s : DState) (data : List ℕ) (e : PyErr)
    (hhead : data.head? = some 0x23)
    (herr : (analogLoop data 7 fuel).2 = some (.error e)) :
    notification_handler fuel km repeat_delay now s data
      = some (handlerButtonPart km repeat_delay now s data) := by
  match data with
  | [] => simp at hhead
  | msg :: rest =>
    have hmsg : msg = 0x23 := by simpa using hhead
    subst hmsg
    have h7 := analogLoop_error_lt _ _ _ _ herr
    have h6 : 6 ≤ ((0x23 : ℕ) :: rest).length := by
      simp only [List.length_cons] at h7 ⊢
      omega
    simp only [notification_handler]
    rw [if_pos h6]
    simp [herr]

/-- C7 witness: a frame that presses `A_BTN` and then carries a truncated
varint in its analog payload: the scan errors, yet the handler returns
the button-part result (the `Press("a")` dispatch survives). -/
theorem c7_varint_failure_contained_witness :
    ([0x23, 0x00, 0xEF, 0xFF, 0xFF, 0xFF, 0x00, 0x1a, 0x02, 0x08, 0x80] :
        List ℕ).head? = some 0x23 ∧
    (analogLoop [0x23, 0x00, 0xEF, 0xFF, 0xFF, 0xFF, 0x00,
        0x1a, 0x02, 0x08, 0x80] 7 5).2 = some (.error .indexError) ∧
    notification_handler 5 DEFAULT_KEY_MAPPING (1/5) 10 ⟨[], [], []⟩
        [0x23, 0x00, 0xEF, 0xFF, 0xFF, 0xFF, 0x00, 0x1a, 0x02, 0x08, 0x80]
      = some (handlerButtonPart DEFAULT_KEY_MAPPING (1/5) 10 ⟨[], [], []⟩
          [0x23, 0x00, 0xEF, 0xFF, 0xFF, 0xFF, 0x00, 0x1a, 0x02, 0x08,
           0x80]) :=
  ⟨rfl, by decide,
   c7_varint_failure_contained 5 DEFAULT_KEY_MAPPING (1/5) 10 ⟨[], [], []⟩
     _ .indexError rfl (by decide)⟩

/-- C8: decoding with the source's zigzag formula
`(raw >> 1) ^ (-(raw & 1))` inverts the zigzag encoding on every signed
32-bit integer, and the encoding maps 0↦0, -1↦1, 1↦2, -2↦3. -/
theorem c8_zigzag_roundtrip :
    (∀ v : ℤ, -(2 ^ 31) ≤ v → v < 2 ^ 31 →
      zigzag_decode (zigzag_encode v) = v)
    ∧ zigzag_encode 0 = 0 ∧ zigzag_encode (-1) = 1
    ∧ zigzag_encode 1 = 2 ∧ zigzag_encode (-2) = 3 := by
  refine ⟨?_, by decide, by decide, by decide, by decide⟩
  intro v _ _
  rcases le_or_lt 0 v with hv | hv
  · have henc : zigzag_encode v = 2 * v.toNat := by
      rw [zigzag_encode, if_pos hv]
      omega
    rw [henc]
    unfold zigzag_decode
    have e1 : (2 * v.toNat) >>> 1 = v.toNat := by
      rw [Nat.shiftRight_eq_div_pow, pow_one]
      omega
    have e2 : (2 * v.toNat) &&& 1 = 0 := by
      rw [Nat.and_one_is_mod]
      omega
    rw [e1, e2]
    simp only [Nat.cast_zero, neg_zero, int_xor_zero]
    omega
  · have henc : zigzag_encode v = 2 * ((-v).toNat - 1) + 1 := by
      rw [zigzag_encode, if_neg (not_le.mpr hv)]
      omega
    rw [henc]
    unfold zigzag_decode
    have e1 : (2 * ((-v).toNat - 1) + 1) >>> 1 = (-v).toNat - 1 := by
      rw [Nat.shiftRight_eq_div_pow, pow_one]
      omega
    have e2 : (2 * ((-v).toNat - 1) + 1) &&& 1 = 1 := by
      rw [Nat.and_one_is_mod]
      omega
    rw [e1, e2]
    simp only [Nat.cast_one]
    rw [int_xor_neg_one, Int.negSucc_eq]
    omega

/-- C8 witness: the round trip at v = -5. -/
theorem c8_zigzag_roundtrip_witness :
    -(2 ^ 31) ≤ (-5 : ℤ) ∧ (-5 : ℤ) < 2 ^ 31 ∧
    zigzag_decode (zigzag_encode (-5)) = -5 :=
  ⟨by decide, by decide, c8_zigzag_roundtrip.1 (-5) (by decide) (by decide)⟩

/-! ## Helper lemmas for the unmapped-button claim -/

/-- Deduplication commutes with filtering. -/
theorem dedup_filter {α : Type*} [DecidableEq α] (p : α → Bool) (l : List α) :
    (l.filter p).dedup = l.dedup.filter p := by
  induction l with
  | nil => rfl
  | cons a l ih =>
    by_cases pa : p a
    · rw [List.filter_cons, if_pos pa]
      by_cases hm : a ∈ l
      · rw [List.dedup_cons_of_mem (by simp [List.mem_filter, hm, pa]),
          List.dedup_cons_of_mem hm, ih]
      · rw [List.dedup_cons_of_not_mem (by simp [List.mem_filter, hm]),
          List.dedup_cons_of_not_mem hm, List.filter_cons, if_pos pa, ih]
    · rw [List.filter_cons, if_neg pa]
      by_cases hm : a ∈ l
      · rw [List.dedup_cons_of_mem hm, ih]
      · rw [List.dedup_cons_of_not_mem hm, List.filter_cons, if_neg pa, ih]

/-- Erasing a button from both lists commutes with the intersection
filter of the still-pressed pass. -/
theorem filter_mem_erase (cur P : List Button) (b : Button) :
    (cur.filter (fun x => x ≠ b)).filter
        (fun x => x ∈ P.filter (fun y => y ≠ b))
      = (cur.filter (fun x => x ∈ P)).filter (fun x => x ≠ b) := by
  rw [List.filter_filter, List.filter_filter]
  apply List.filter_congr
  intro x _
  by_cases hx : x = b <;> simp [hx, List.mem_filter]

/-- Erasing a button from both lists commutes with the difference filter
of the newly-pressed and newly-released passes. -/
theorem filter_notmem_erase (cur P : List Button) (b : Button) :
    (cur.filter (fun x => x ≠ b)).filter
        (fun x => x ∉ P.filter (fun y => y ≠ b))
      = (cur.filter (fun x => x ∉ P)).filter (fun x => x ≠ b) := by
  rw [List.filter_filter, List.filter_filter]
  apply List.filter_congr
  intro x _
  by_cases hx : x = b <;> simp [hx, List.mem_filter]

/-- An unmapped button is a no-op for the repeat pass. -/
theorem repeatStep_unmapped (km : Button → Option String)
    (repeat_delay now : ℚ) (b : Button) (hb : km b = none) (s : DState) :
    repeatStep km repeat_delay now s b = (s, []) := by
  simp [repeatStep, hb]

/-- An unmapped button is a no-op for the newly-pressed pass. -/
theorem pressStep_unmapped (km : Button → Option String) (now : ℚ)
    (b : Button) (hb : km b = none) (s : DState) :
    pressStep km now s b = (s, []) := by
  simp [pressStep, hb]

/-- An unmapped button is a no-op for the newly-released pass. -/
theorem releaseStep_unmapped (km : Button → Option String)
    (b : Button) (hb : km b = none) (s : DState) :
    releaseStep km s b = (s, []) := by
  simp [releaseStep, hb]

/-- Filtering a no-op button out of the iterated list does not change a
pass. -/
theorem phaseFold_filter_ne (step : DState → Button → DState × List Action)
    (b : Button) (hb : ∀ s, step s b = (s, [])) (L : List Button) :
    ∀ s, phaseFold step s (L.filter (fun x => x ≠ b)) = phaseFold step s L := by
  induction L with
  | nil => intro s; rfl
  | cons x L ih =>
    intro s
    by_cases hx : x = b
    · subst hx
      rw [List.filter_cons, if_neg (by simp)]
      rw [ih s]
      simp [phaseFold, hb s]
    · rw [List.filter_cons, if_pos (by simp [hx])]
      simp only [phaseFold]
      rw [ih ((step s x).1)]

/-- None of the per-button pass bodies reads `pressed_buttons`: changing
that field changes only that field of a pass's result. -/
theorem phaseFold_pressed (step : DState → Button → DState × List Action)
    (hstep : ∀ (X : List Button) (s : DState) (x : Button),
      step ⟨X, s.active_keys, s.last_press_time⟩ x
        = (⟨X, (step s x).1.active_keys, (step s x).1.last_press_time⟩,
           (step s x).2))
    (L : List Button) :
    ∀ (X : List Button) (s : DState),
      phaseFold step ⟨X, s.active_keys, s.last_press_time⟩ L
        = (⟨X, (phaseFold step s L).1.active_keys,
            (phaseFold step s L).1.last_press_time⟩,
           (phaseFold step s L).2) := by
  induction L with
  | nil => intro X s; rfl
  | cons x L ih =>
    intro X s
    simp only [phaseFold]
    rw [hstep X s x]
    rw [ih X ((step s x).1)]

/-- `repeatStep` ignores `pressed_buttons`. -/
theorem repeatStep_pressed (km : Button → Option String)
    (repeat_delay now : ℚ) (X : List Button) (s : DState) (x : Button) :
    repeatStep km repeat_delay now ⟨X, s.active_keys, s.last_press_time⟩ x
      = (⟨X, (repeatStep km repeat_delay now s x).1.active_keys,
          (repeatStep km repeat_delay now s x).1.last_press_time⟩,
         (repeatStep km repeat_delay now s x).2) := by
  cases hkm : km x with
  | none => simp [repeatStep, hkm]
  | some key =>
    simp only [repeatStep, hkm]
    split_ifs <;> rfl

/-- `pressStep` ignores `pressed_buttons`. -/
theorem pressStep_pressed (km : Button → Option String) (now : ℚ)
    (X : List Button) (s : DState) (x : Button) :
    pressStep km now ⟨X, s.active_keys, s.last_press_time⟩ x
      = (⟨X, (pressStep km now s x).1.active_keys,
          (pressStep km now s x).1.last_press_time⟩,
         (pressStep km now s x).2) := by
  cases hkm : km x with
  | none => simp [pressStep, hkm]
  | some key => simp [pressStep, hkm]

/-- `releaseStep` ignores `pressed_buttons`. -/
theorem releaseStep_pressed (km : Button → Option String)
    (X : List Button) (s : DState) (x : Button) :
    releaseStep km ⟨X, s.active_keys, s.last_press_time⟩ x
      = (⟨X, (releaseStep km s x).1.active_keys,
          (releaseStep km s x).1.last_press_time⟩,
         (releaseStep km s x).2) := by
  cases hkm : km x with
  | none => simp [releaseStep, hkm]
  | some key => simp only [releaseStep, hkm]

/-- Removing the entries of a different button from the timestamp dict
does not change a lookup. -/
theorem lptGet_filter_ne (d : List (Button × ℚ)) (x b : Button)
    (hxb : x ≠ b) :
    lptGet (d.filter (fun p => p.1 ≠ x)) b = lptGet d b := by
  induction d with
  | nil => rfl
  | cons p rest ih =>
    by_cases hp : p.1 = x
    · rw [List.filter_cons, if_neg (by simp [hp])]
      rw [ih]
      have hne : ¬ p.1 = b := by rw [hp]; exact hxb
      conv_rhs => rw [lptGet, if_neg hne]
    · rw [List.filter_cons, if_pos (by simp [hp])]
      by_cases hpb : p.1 = b
      · rw [lptGet, if_pos hpb]
        conv_rhs => rw [lptGet, if_pos hpb]
      · rw [lptGet, if_neg hpb, ih]
        conv_rhs => rw [lptGet, if_neg hpb]

/-- Stamping a different button leaves a button's timestamp unchanged. -/
theorem lptGet_lptSet_ne (d : List (Button × ℚ)) (x b : Button) (t : ℚ)
    (hxb : x ≠ b) : lptGet (lptSet d x t) b = lptGet d b := by
  rw [lptSet, lptGet, if_neg (by simpa using hxb)]
  exact lptGet_filter_ne d x b hxb

/-- With `b` unmapped, no `repeatStep` changes `b`'s timestamp. -/
theorem repeatStep_lpt_b (km : Button → Option String)
    (repeat_delay now : ℚ) (b : Button) (hb : km b = none)
    (s : DState) (x : Button) :
    lptGet (repeatStep km repeat_delay now s x).1.last_press_time b
      = lptGet s.last_press_time b := by
  cases hkm : km x with
  | none => simp [repeatStep, hkm]
  | some key =>
    have hxb : x ≠ b := by
      rintro rfl
      rw [hb] at hkm
      exact Option.noConfusion hkm
    simp only [repeatStep, hkm]
    split_ifs <;> simp [lptGet_lptSet_ne _ _ _ _ hxb]

/-- With `b` unmapped, no `pressStep` changes `b`'s timestamp. -/
theorem pressStep_lpt_b (km : Button → Option String) (now : ℚ)
    (b : Button) (hb : km b = none) (s : DState) (x : Button) :
    lptGet (pressStep km now s x).1.last_press_time b
      = lptGet s.last_press_time b := by
  cases hkm : km x with
  | none => simp [pressStep, hkm]
  | some key =>
    have hxb : x ≠ b := by
      rintro rfl
      rw [hb] at hkm
      exact Option.noConfusion hkm
    simp [pressStep, hkm, lptGet_lptSet_ne _ _ _ _ hxb]

/-- `releaseStep` never changes any timestamp. -/
theorem releaseStep_lpt_b (km : Button → Option String) (b : Button)
    (s : DState) (x : Button) :
    lptGet (releaseStep km s x).1.last_press_time b
      = lptGet s.last_press_time b := by
  cases hkm : km x with
  | none => simp [releaseStep, hkm]
  | some key => simp only [releaseStep, hkm]

/-- A pass whose steps never change `b`'s timestamp leaves it unchanged. -/
theorem phaseFold_lpt_b (step : DState → Button → DState × List Action)
    (b : Button)
    (hstep : ∀ (s : DState) (x : Button),
      lptGet (step s x).1.last_press_time b = lptGet s.last_press_time b)
    (L : List Button) :
    ∀ s, lptGet (phaseFold step s L).1.last_press_time b
      = lptGet s.last_press_time b := by
  induction L with
  | nil => intro s; rfl
  | cons x L ih =>
    intro s
    simp only [phaseFold]
    rw [ih ((step s x).1), hstep s x]

/-- C9: a button `b` absent from the mapping contributes nothing to a
dispatch update: the emitted actions, the final active keys and the
final timestamp dict are identical to those of the run with `b` removed
from both the previous and the current set; `b`'s own timestamp entry is
untouched; only `pressed_buttons` is replaced wholesale by the new
current set (which may contain `b`). -/
theorem c9_unmapped_ignored (km : Button → Option String)
    (repeat_delay now : ℚ) (s : DState) (buttons : List Button)
    (b : Button) (hb : km b = none) :
    (trigger_keystrokes km repeat_delay now s buttons).2
      = (trigger_keystrokes km repeat_delay now
          ⟨s.pressed_buttons.filter (fun x => x ≠ b), s.active_keys,
            s.last_press_time⟩ (buttons.filter (fun x => x ≠ b))).2
    ∧ (trigger_keystrokes km repeat_delay now s buttons).1.active_keys
      = (trigger_keystrokes km repeat_delay now
          ⟨s.pressed_buttons.filter (fun x => x ≠ b), s.active_keys,
            s.last_press_time⟩ (buttons.filter (fun x => x ≠ b))).1.active_keys
    ∧ (trigger_keystrokes km repeat_delay now s buttons).1.last_press_time
      = (trigger_keystrokes km repeat_delay now
          ⟨s.pressed_buttons.filter (fun x => x ≠ b), s.active_keys,
            s.last_press_time⟩
          (buttons.filter (fun x => x ≠ b))).1.last_press_time
    ∧ lptGet (trigger_keystrokes km repeat_delay now s buttons).1.last_press_time b
      = lptGet s.last_press_time b
    ∧ (trigger_keystrokes km repeat_delay now s buttons).1.pressed_buttons
      = buttons.dedup := by
  have hrep : ∀ s, repeatStep km repeat_delay now s b = (s, []) :=
    repeatStep_unmapped km repeat_delay now b hb
  have hprs : ∀ s, pressStep km now s b = (s, []) :=
    pressStep_unmapped km now b hb
  have hrel : ∀ s, releaseStep km s b = (s, []) :=
    releaseStep_unmapped km b hb
  have key : trigger_keystrokes km repeat_delay now
      ⟨s.pressed_buttons.filter (fun x => x ≠ b), s.active_keys,
        s.last_press_time⟩ (buttons.filter (fun x => x ≠ b))
      = (⟨(buttons.filter (fun x => x ≠ b)).dedup,
          (trigger_keystrokes km repeat_delay now s buttons).1.active_keys,
          (trigger_keystrokes km repeat_delay now s buttons).1.last_press_time⟩,
         (trigger_keystrokes km repeat_delay now s buttons).2) := by
    simp only [trigger_keystrokes]
    rw [dedup_filter]
    rw [filter_mem_erase buttons.dedup s.pressed_buttons b]
    rw [filter_notmem_erase buttons.dedup s.pressed_buttons b]
    rw [filter_notmem_erase s.pressed_buttons buttons.dedup b]
    rw [phaseFold_pressed _ (repeatStep_pressed km repeat_delay now) _ _ s]
    rw [phaseFold_filter_ne _ b hrep]
    rw [phaseFold_pressed _ (pressStep_pressed km now) _ _
      (phaseFold (repeatStep km repeat_delay now) s
        (buttons.dedup.filter (fun x => x ∈ s.pressed_buttons))).1]
    rw [phaseFold_filter_ne _ b hprs]
    rw [phaseFold_pressed _ (releaseStep_pressed km) _ _
      (phaseFold (pressStep km now)
        (phaseFold (repeatStep km repeat_delay now) s
          (buttons.dedup.filter (fun x => x ∈ s.pressed_buttons))).1
        (buttons.dedup.filter (fun x => x ∉ s.pressed_buttons))).1]
    rw [phaseFold_filter_ne _ b hrel]
  refine ⟨by rw [key], by rw [key], by rw [key], ?_, rfl⟩
  show lptGet (trigger_keystrokes km repeat_delay now s buttons).1.last_press_time b
      = lptGet s.last_press_time b
  simp only [trigger_keystrokes]
  rw [phaseFold_lpt_b _ b (fun s x => releaseStep_lpt_b km b s x)]
  rw [phaseFold_lpt_b _ b (fun s x => pressStep_lpt_b km now b hb s x)]
  rw [phaseFold_lpt_b _ b (fun s x => repeatStep_lpt_b km repeat_delay now b hb s x)]

/-- C9 witness: mapping sending only `A_BTN` to "a", with `B_BTN` pressed
but unmapped: the update equals the one with `B_BTN` erased everywhere
except in the wholesale `pressed_buttons` replacement. -/
theorem c9_unmapped_ignored_witness :
    (fun x => if x = Button.A_BTN then some "a" else none) Button.B_BTN
        = none ∧
    ((trigger_keystrokes (fun x => if x = Button.A_BTN then some "a" else none)
        (1/5) 1 ⟨[Button.A_BTN, Button.B_BTN], ["a"], []⟩ [Button.B_BTN]).2
      = (trigger_keystrokes
          (fun x => if x = Button.A_BTN then some "a" else none) (1/5) 1
          ⟨[Button.A_BTN, Button.B_BTN].filter (fun x => x ≠ Button.B_BTN),
            ["a"], []⟩
          ([Button.B_BTN].filter (fun x => x ≠ Button.B_BTN))).2
    ∧ (trigger_keystrokes (fun x => if x = Button.A_BTN then some "a" else none)
        (1/5) 1 ⟨[Button.A_BTN, Button.B_BTN], ["a"], []⟩
        [Button.B_BTN]).1.active_keys
      = (trigger_keystrokes
          (fun x => if x = Button.A_BTN then some "a" else none) (1/5) 1
          ⟨[Button.A_BTN, Button.B_BTN].filter (fun x => x ≠ Button.B_BTN),
            ["a"], []⟩
          ([Button.B_BTN].filter (fun x => x ≠ Button.B_BTN))).1.active_keys
    ∧ (trigger_keystrokes (fun x => if x = Button.A_BTN then some "a" else none)
        (1/5) 1 ⟨[Button.A_BTN, Button.B_BTN], ["a"], []⟩
        [Button.B_BTN]).1.last_press_time
      = (trigger_keystrokes
          (fun x => if x = Button.A_BTN then some "a" else none) (1/5) 1
          ⟨[Button.A_BTN, Button.B_BTN].filter (fun x => x ≠ Button.B_BTN),
            ["a"], []⟩
          ([Button.B_BTN].filter (fun x => x ≠ Button.B_BTN))).1.last_press_time
    ∧ lptGet (trigger_keystrokes
          (fun x => if x = Button.A_BTN then some "a" else none) (1/5) 1
          ⟨[Button.A_BTN, Button.B_BTN], ["a"], []⟩
          [Button.B_BTN]).1.last_press_time Button.B_BTN
      = lptGet [] Button.B_BTN
    ∧ (trigger_keystrokes (fun x => if x = Button.A_BTN then some "a" else none)
        (1/5) 1 ⟨[Button.A_BTN, Button.B_BTN], ["a"], []⟩
        [Button.B_BTN]).1.pressed_buttons
      = [Button.B_BTN].dedup) :=
  ⟨rfl, c9_unmapped_ignored
    (fun x => if x = Button.A_BTN then some "a" else none) (1/5) 1
    ⟨[Button.A_BTN, Button.B_BTN], ["a"], []⟩ [Button.B_BTN] Button.B_BTN rfl⟩

/-! ## Helper lemmas for the analog-scan claim -/

/-- `parse_analog_message` always reports the full slice length as
`next_index`. -/
theorem parse_analog_next_index (data : List ℕ) (r : AnalogData)
    (h : parse_analog_message data = .ok (some r)) :
    r.next_index = data.length := by
  match data with
  | [] => simp [parse_analog_message] at h
  | b :: rest =>
    simp only [parse_analog_message] at h
    by_cases hb : b = 0x1a
    · rw [if_pos hb] at h
      cases hg : parse_key_group (b :: rest) with
      | error e => rw [hg] at h; exact Except.noConfusion h
      | ok res =>
        rw [hg] at h
        obtain rfl := Option.some.inj (Except.ok.inj h)
        rfl
    · rw [if_neg hb] at h
      exact Option.noConfusion (Except.ok.inj h)

/-- A successful analog parse means the slice was non-empty, so the
start offset was inside the frame. -/
theorem parse_ok_lt (data : List ℕ) (p : ℕ) (r : AnalogData)
    (h : parse_analog_message (data.drop p) = .ok (some r)) :
    p < data.length := by
  by_contra hp
  rw [List.drop_eq_nil_of_le (by omega)] at h
  simp [parse_analog_message] at h

/-- When the analog sub-messages at offset `p` and at the reflected
offset `length - p` both parse, the scanning loop bounces between the
two offsets forever: its fuel always runs out. -/
theorem analogLoop_none_of_parseOk (data : List ℕ) :
    ∀ (fuel p : ℕ) (r1 r2 : AnalogData),
      parse_analog_message (data.drop p) = .ok (some r1) →
      parse_analog_message (data.drop (data.length - p)) = .ok (some r2) →
      (analogLoop data p fuel).2 = none := by
  intro fuel
  induction fuel with
  | zero => intro p r1 r2 _ _; rfl
  | succ f ih =>
    intro p r1 r2 h1 h2
    have hp : p < data.length := parse_ok_lt data p r1 h1
    have hnext : r1.next_index = data.length - p := by
      rw [parse_analog_next_index _ _ h1, List.length_drop]
    simp only [analogLoop]
    rw [if_pos hp, h1]
    simp only []
    rw [hnext]
    exact ih (data.length - p) r2 r1 h2
      (by rwa [Nat.sub_sub_self (Nat.le_of_lt hp)])

/-- A scan that counted at least one parse did parse the sub-message at
its start offset. -/
theorem analogLoop_ge_one (data : List ℕ) (p fuel n : ℕ)
    (o : Option (Except PyErr Unit)) (h : analogLoop data p fuel = (n, o))
    (hn : 1 ≤ n) :
    ∃ r, parse_analog_message (data.drop p) = .ok (some r) := by
  match fuel with
  | 0 =>
    rw [analogLoop] at h
    obtain rfl := (Prod.mk.injEq _ _ _ _ ▸ h).1.symm
    omega
  | f + 1 =>
    by_cases hp : p < data.length
    · rw [analogLoop, if_pos hp] at h
      cases hpar : parse_analog_message (data.drop p) with
      | error e =>
        rw [hpar] at h
        obtain rfl := (Prod.mk.injEq _ _ _ _ ▸ h).1.symm
        omega
      | ok res =>
        cases res with
        | none =>
          rw [hpar] at h
          obtain rfl := (Prod.mk.injEq _ _ _ _ ▸ h).1.symm
          omega
        | some r => exact ⟨r, rfl⟩
    · rw [analogLoop, if_neg hp] at h
      obtain rfl := (Prod.mk.injEq _ _ _ _ ▸ h).1.symm
      omega

/-- C10 counterexample: a 16-byte ButtonStatus frame with `0x1a` at
offset 7 and again at offset 9 = 16 - 7: the scanning loop parses two
analog sub-messages within two iterations (refuting "at most one per
frame"), and indeed never terminates on this frame. -/
theorem c10_counterexample :
    (analogLoop [0x23, 0, 0, 0, 0, 0, 0, 0x1a, 0, 0x1a, 0, 0, 0, 0, 0, 0]
        7 2).1 = 2 ∧
    (analogLoop [0x23, 0, 0, 0, 0, 0, 0, 0x1a, 0, 0x1a, 0, 0, 0, 0, 0, 0]
        7 10).2 = none := by
  constructor <;> decide

/-- C10 (amended): `parse_analog_message` always returns `next_index`
equal to the full length of its input slice; the scanning loop of
`notification_handler` therefore re-enters at offset
`len(data) - start_index`, so it parses at most one analog sub-message
only in runs that terminate — when the byte at the reflected offset is
also `0x1a` the loop parses a second sub-message and then bounces
between the two offsets forever. -/
theorem c10_next_index_amended :
    (∀ (data : List ℕ) (r : AnalogData),
      parse_analog_message data = .ok (some r) → r.next_index = data.length)
    ∧ (∀ (data : List ℕ) (start fuel n : ℕ) (out : Except PyErr Unit),
        analogLoop data start fuel = (n, some out) → n ≤ 1) := by
  refine ⟨parse_analog_next_index, ?_⟩
  intro data start fuel n out h
  by_contra hn
  match fuel with
  | 0 => exact Option.noConfusion (Prod.mk.injEq _ _ _ _ ▸ h).2
  | f + 1 =>
    by_cases hp : start < data.length
    · rw [analogLoop, if_pos hp] at h
      cases hpar : parse_analog_message (data.drop start) with
      | error e =>
        rw [hpar] at h
        have := (Prod.mk.injEq _ _ _ _ ▸ h).1
        omega
      | ok res =>
        cases res with
        | none =>
          rw [hpar] at h
          have := (Prod.mk.injEq _ _ _ _ ▸ h).1
          omega
        | some r =>
          rw [hpar] at h
          simp only [] at h
          have h1 := (Prod.mk.injEq _ _ _ _ ▸ h).1
          have h2 := (Prod.mk.injEq _ _ _ _ ▸ h).2
          have hm : 1 ≤ (analogLoop data r.next_index f).1 := by omega
          obtain ⟨r2, hpar2⟩ := analogLoop_ge_one data r.next_index f
            (analogLoop data r.next_index f).1
            (analogLoop data r.next_index f).2 rfl hm
          have hnext : r.next_index = data.length - start := by
            rw [parse_analog_next_index _ _ hpar, List.length_drop]
          rw [hnext] at hpar2
          have hnone := analogLoop_none_of_parseOk data (f + 1) start r r2
            hpar hpar2
          rw [analogLoop, if_pos hp, hpar] at hnone
          simp only [] at hnone
          rw [hnone] at h2
          exact Option.noConfusion h2
    · rw [analogLoop, if_neg hp] at h
      have := (Prod.mk.injEq _ _ _ _ ▸ h).1
      omega

/-! ## Helper lemmas for the release-after-press claim -/

/-- A pass over buttons none of which emits actions for key `k`
contributes nothing to the `k`-filtered action stream. -/
theorem phaseFold_keyfilter (step : DState → Button → DState × List Action)
    (k : String) :
    ∀ (L : List Button),
      (∀ (s : DState) (x : Button), x ∈ L →
        (step s x).2.filter (fun a => keyOf a = k) = []) →
      ∀ s, (phaseFold step s L).2.filter (fun a => keyOf a = k) = []
  | [], _, _ => rfl
  | x :: L, hstep, s => by
    simp only [phaseFold, List.filter_append]
    rw [hstep s x (List.mem_cons_self x L), List.nil_append]
    exact phaseFold_keyfilter step k L
      (fun s' y hy => hstep s' y (List.mem_cons_of_mem x hy)) (step s x).1

/-- A repeat step for a button not mapped to `k` emits no action with
key `k`. -/
theorem repeatStep_keyfilter_ne (km : Button → Option String)
    (repeat_delay now : ℚ) (k : String) (s : DState) (x : Button)
    (hx : km x ≠ some k) :
    (repeatStep km repeat_delay now s x).2.filter (fun a => keyOf a = k)
      = [] := by
  cases hkm : km x with
  | none => simp [repeatStep, hkm]
  | some key =>
    have hkk : ¬ key = k := fun h => hx (h ▸ hkm)
    simp only [repeatStep, hkm]
    split_ifs <;> simp [keyOf, hkk]

/-- A new-press step for a button not mapped to `k` emits no action with
key `k`. -/
theorem pressStep_keyfilter_ne (km : Button → Option String) (now : ℚ)
    (k : String) (s : DState) (x : Button) (hx : km x ≠ some k) :
    (pressStep km now s x).2.filter (fun a => keyOf a = k) = [] := by
  cases hkm : km x with
  | none => simp [pressStep, hkm]
  | some key =>
    have hkk : ¬ key = k := fun h => hx (h ▸ hkm)
    simp [pressStep, hkm, keyOf, hkk]

/-- A release step for a button not mapped to `k` emits no action with
key `k`. -/
theorem releaseStep_keyfilter_ne (km : Button → Option String)
    (k : String) (s : DState) (x : Button) (hx : km x ≠ some k) :
    (releaseStep km s x).2.filter (fun a => keyOf a = k) = [] := by
  cases hkm : km x with
  | none => simp [releaseStep, hkm]
  | some key =>
    have hkk : ¬ key = k := fun h => hx (h ▸ hkm)
    simp [releaseStep, hkm, keyOf, hkk]

/-- The `k`-filtered actions of the repeat pass over a duplicate-free
list, when `b0` is the only button mapped to `k`, are one of `[]`,
`[press k]`, `[release k, press k]`. -/
theorem repeatPhase_shape (km : Button → Option String)
    (repeat_delay now : ℚ) (k : String) (b0 : Button)
    (huniq : ∀ x, km x = some k → x = b0) :
    ∀ (L : List Button), L.Nodup → ∀ s,
      (phaseFold (repeatStep km repeat_delay now) s L).2.filter
          (fun a => keyOf a = k) = []
      ∨ (phaseFold (repeatStep km repeat_delay now) s L).2.filter
          (fun a => keyOf a = k) = [Action.press k]
      ∨ (phaseFold (repeatStep km repeat_delay now) s L).2.filter
          (fun a => keyOf a = k) = [Action.release k, Action.press k]
  | [], _, _ => Or.inl rfl
  | x :: L, hnd, s => by
    have hx_notmem : x ∉ L := (List.nodup_cons.mp hnd).1
    have hndL : L.Nodup := (List.nodup_cons.mp hnd).2
    simp only [phaseFold, List.filter_append]
    by_cases hx : km x = some k
    · have hrest : (phaseFold (repeatStep km repeat_delay now)
          (repeatStep km repeat_delay now s x).1 L).2.filter
          (fun a => keyOf a = k) = [] := by
        apply phaseFold_keyfilter
        intro s' y hy
        apply repeatStep_keyfilter_ne
        intro hky
        rw [huniq y hky, ← huniq x hx] at hy
        exact hx_notmem hy
      rw [hrest, List.append_nil]
      simp only [repeatStep, hx]
      split_ifs with h1 h2
      · exact Or.inr (Or.inr (by simp [keyOf]))
      · exact Or.inr (Or.inl (by simp [keyOf]))
      · exact Or.inl (by simp)
    · rw [repeatStep_keyfilter_ne km repeat_delay now k s x hx,
        List.nil_append]
      exact repeatPhase_shape km repeat_delay now k b0 huniq L hndL
        (repeatStep km repeat_delay now s x).1

/-- The `k`-filtered actions of the newly-pressed pass over a
duplicate-free list, when `b0` is the only button mapped to `k`, are
`[]` or `[press k]`. -/
theorem pressPhase_shape (km : Button → Option String) (now : ℚ)
    (k : String) (b0 : Button) (huniq : ∀ x, km x = some k → x = b0) :
    ∀ (L : List Button), L.Nodup → ∀ s,
      (phaseFold (pressStep km now) s L).2.filter (fun a => keyOf a = k) = []
      ∨ (phaseFold (pressStep km now) s L).2.filter (fun a => keyOf a = k)
          = [Action.press k]
  | [], _, _ => Or.inl rfl
  | x :: L, hnd, s => by
    have hx_notmem : x ∉ L := (List.nodup_cons.mp hnd).1
    have hndL : L.Nodup := (List.nodup_cons.mp hnd).2
    simp only [phaseFold, List.filter_append]
    by_cases hx : km x = some k
    · have hrest : (phaseFold (pressStep km now)
          (pressStep km now s x).1 L).2.filter (fun a => keyOf a = k)
          = [] := by
        apply phaseFold_keyfilter
        intro s' y hy
        apply pressStep_keyfilter_ne
        intro hky
        rw [huniq y hky, ← huniq x hx] at hy
        exact hx_notmem hy
      rw [hrest, List.append_nil]
      simp only [pressStep, hx]
      exact Or.inr (by simp [keyOf])
    · rw [pressStep_keyfilter_ne km now k s x hx, List.nil_append]
      exact pressPhase_shape km now k b0 huniq L hndL
        (pressStep km now s x).1

/-- The `k`-filtered actions of the newly-released pass over a
duplicate-free list, when `b0` is the only button mapped to `k`, are
`[]` or `[release k]`. -/
theorem releasePhase_shape (km : Button → Option String) (k : String)
    (b0 : Button) (huniq : ∀ x, km x = some k → x = b0) :
    ∀ (L : List Button), L.Nodup → ∀ s,
      (phaseFold (releaseStep km) s L).2.filter (fun a => keyOf a = k) = []
      ∨ (phaseFold (releaseStep km) s L).2.filter (fun a => keyOf a = k)
          = [Action.release k]
  | [], _, _ => Or.inl rfl
  | x :: L, hnd, s => by
    have hx_notmem : x ∉ L := (List.nodup_cons.mp hnd).1
    have hndL : L.Nodup := (List.nodup_cons.mp hnd).2
    simp only [phaseFold, List.filter_append]
    by_cases hx : km x = some k
    · have hrest : (phaseFold (releaseStep km)
          (releaseStep km s x).1 L).2.filter (fun a => keyOf a = k)
          = [] := by
        apply phaseFold_keyfilter
        intro s' y hy
        apply releaseStep_keyfilter_ne
        intro hky
        rw [huniq y hky, ← huniq x hx] at hy
        exact hx_notmem hy
      rw [hrest, List.append_nil]
      simp only [releaseStep, hx]
      exact Or.inr (by simp [keyOf])
    · rw [releaseStep_keyfilter_ne km k s x hx, List.nil_append]
      exact releasePhase_shape km k b0 huniq L hndL (releaseStep km s x).1

/-- Under an injective mapping and a duplicate-free previous set, the
`k`-filtered action stream of one dispatch update is one of `[]`,
`[press k]`, `[release k]`, `[release k, press k]`. -/
theorem trigger_keyfilter_shape (km : Button → Option String)
    (repeat_delay now : ℚ) (s : DState) (buttons : List Button) (k : String)
    (hinj : ∀ b1 b2 k', km b1 = some k' → km b2 = some k' → b1 = b2)
    (hnd : s.pressed_buttons.Nodup) :
    (trigger_keystrokes km repeat_delay now s buttons).2.filter
        (fun a => keyOf a = k) = []
    ∨ (trigger_keystrokes km repeat_delay now s buttons).2.filter
        (fun a => keyOf a = k) = [Action.press k]
    ∨ (trigger_keystrokes km repeat_delay now s buttons).2.filter
        (fun a => keyOf a = k) = [Action.release k]
    ∨ (trigger_keystrokes km repeat_delay now s buttons).2.filter
        (fun a => keyOf a = k) = [Action.release k, Action.press k] := by
  have hnd1 : (buttons.dedup.filter
      (fun x => x ∈ s.pressed_buttons)).Nodup :=
    (List.nodup_dedup buttons).filter _
  have hnd2 : (buttons.dedup.filter
      (fun x => x ∉ s.pressed_buttons)).Nodup :=
    (List.nodup_dedup buttons).filter _
  have hnd3 : (s.pressed_buttons.filter
      (fun x => x ∉ buttons.dedup)).Nodup := hnd.filter _
  by_cases hex : ∃ b0, km b0 = some k
  · obtain ⟨b0, hk⟩ := hex
    have huniq : ∀ x, km x = some k → x = b0 :=
      fun x hx => hinj x b0 k hx hk
    have hnil1 : b0 ∉ buttons.dedup.filter (fun x => x ∈ s.pressed_buttons) →
        ∀ s', (phaseFold (repeatStep km repeat_delay now) s'
          (buttons.dedup.filter (fun x => x ∈ s.pressed_buttons))).2.filter
          (fun a => keyOf a = k) = [] := by
      intro hb0 s'
      apply phaseFold_keyfilter
      intro s'' y hy
      apply repeatStep_keyfilter_ne
      intro hky
      exact hb0 (huniq y hky ▸ hy)
    have hnil2 : b0 ∉ buttons.dedup.filter (fun x => x ∉ s.pressed_buttons) →
        ∀ s', (phaseFold (pressStep km now) s'
          (buttons.dedup.filter (fun x => x ∉ s.pressed_buttons))).2.filter
          (fun a => keyOf a = k) = [] := by
      intro hb0 s'
      apply phaseFold_keyfilter
      intro s'' y hy
      apply pressStep_keyfilter_ne
      intro hky
      exact hb0 (huniq y hky ▸ hy)
    have hnil3 : b0 ∉ s.pressed_buttons.filter (fun x => x ∉ buttons.dedup) →
        ∀ s', (phaseFold (releaseStep km) s'
          (s.pressed_buttons.filter (fun x => x ∉ buttons.dedup))).2.filter
          (fun a => keyOf a = k) = [] := by
      intro hb0 s'
      apply phaseFold_keyfilter
      intro s'' y hy
      apply releaseStep_keyfilter_ne
      intro hky
      exact hb0 (huniq y hky ▸ hy)
    simp only [trigger_keystrokes, List.filter_append]
    by_cases mc : b0 ∈ buttons.dedup <;> by_cases mp : b0 ∈ s.pressed_buttons
    · rw [hnil2 (fun hmem => absurd mp
          (by simpa using (List.mem_filter.mp hmem).2)) _,
        hnil3 (fun hmem => absurd mc
          (by simpa using (List.mem_filter.mp hmem).2)) _,
        List.append_nil, List.append_nil]
      exact (repeatPhase_shape km repeat_delay now k b0 huniq _ hnd1 s).imp
        id (Or.imp id Or.inr)
    · rw [hnil1 (fun hmem => absurd
          (show b0 ∈ s.pressed_buttons by
            simpa using (List.mem_filter.mp hmem).2) mp) _,
        hnil3 (fun hmem => absurd mc
          (by simpa using (List.mem_filter.mp hmem).2)) _,
        List.nil_append, List.append_nil]
      rcases pressPhase_shape km now k b0 huniq _ hnd2 _ with h | h
      · exact Or.inl h
      · exact Or.inr (Or.inl h)
    · rw [hnil1 (fun hmem => absurd (List.mem_filter.mp hmem).1 mc) _,
        hnil2 (fun hmem => absurd (List.mem_filter.mp hmem).1 mc) _,
        List.nil_append, List.nil_append]
      rcases releasePhase_shape km k b0 huniq _ hnd3 _ with h | h
      · exact Or.inl h
      · exact Or.inr (Or.inr (Or.inl h))
    · rw [hnil1 (fun hmem => absurd (List.mem_filter.mp hmem).1 mc) _,
        hnil2 (fun hmem => absurd (List.mem_filter.mp hmem).1 mc) _,
        hnil3 (fun hmem => absurd (List.mem_filter.mp hmem).1 mp) _]
      exact Or.inl rfl
  · push_neg at hex
    left
    simp only [trigger_keystrokes, List.filter_append]
    rw [phaseFold_keyfilter _ _ _
        (fun s' y _ => repeatStep_keyfilter_ne km repeat_delay now k s' y
          (hex y)) _,
      phaseFold_keyfilter _ _ _
        (fun s' y _ => pressStep_keyfilter_ne km now k s' y (hex y)) _,
      phaseFold_keyfilter _ _ _
        (fun s' y _ => releaseStep_keyfilter_ne km k s' y (hex y)) _]
    rfl

/-- C6 counterexample: with the non-injective mapping `A_BTN ↦ "x"`,
`B_BTN ↦ "x"`, previous set `{A_BTN}` ("x" active) and current set
`{B_BTN}`, one update emits `Press("x")` (newly pressed `B_BTN`)
followed by `Release("x")` (newly released `A_BTN`): a Release of a key
after a Press of the same key that is not the repeat sub-protocol's
release-before-press pair, refuting the claim over every KeyMapping. -/
theorem c6_counterexample :
    (trigger_keystrokes
        (fun x => if x = Button.A_BTN ∨ x = Button.B_BTN then some "x"
          else none)
        (1/5) 0 ⟨[Button.A_BTN], ["x"], [(Button.A_BTN, 0)]⟩
        [Button.B_BTN]).2
      = [Action.press "x", Action.release "x"] := by
  decide

/-- C6 (amended): when the KeyMapping is injective (no two buttons share
an output key) and the previous pressed set is duplicate-free, no
`Release(k)` is ever emitted after a `Press(k)` of the same key within
one dispatch update — the actions touching one key are at most the
repeat pair `[Release k, Press k]`, a lone press, or a lone release. -/
theorem c6_no_release_after_press (km : Button → Option String)
    (repeat_delay now : ℚ) (s : DState) (buttons : List Button)
    (k : String)
    (hinj : ∀ b1 b2 k', km b1 = some k' → km b2 = some k' → b1 = b2)
    (hnd : s.pressed_buttons.Nodup) :
    ¬ List.Sublist [Action.press k, Action.release k]
        (trigger_keystrokes km repeat_delay now s buttons).2 := by
  intro hsub
  have hfil := hsub.filter (fun a => keyOf a = k)
  have hself : ([Action.press k, Action.release k].filter
      (fun a => keyOf a = k)) = [Action.press k, Action.release k] := by
    simp [keyOf]
  rw [hself] at hfil
  rcases trigger_keyfilter_shape km repeat_delay now s buttons k hinj hnd
    with h | h | h | h <;> rw [h] at hfil
  · exact absurd hfil.length_le (by simp)
  · exact absurd hfil.length_le (by simp)
  · exact absurd hfil.length_le (by simp)
  · have heq := hfil.eq_of_length (by simp)
    simp at heq

/-- C6 witness: the injective single-entry mapping `A_BTN ↦ "a"` with
`A_BTN` held: the update never emits `Release("a")` after
`Press("a")`. -/
theorem c6_no_release_after_press_witness :
    (∀ (b1 b2 : Button) (k' : String),
      (fun x => if x = Button.A_BTN then some "a" else none) b1 = some k' →
      (fun x => if x = Button.A_BTN then some "a" else none) b2 = some k' →
      b1 = b2) ∧
    ([Button.A_BTN] : List Button).Nodup ∧
    ¬ List.Sublist [Action.press "a", Action.release "a"]
        (trigger_keystrokes
          (fun x => if x = Button.A_BTN then some "a" else none)
          (1/5) 1 ⟨[Button.A_BTN], ["a"], []⟩ [Button.A_BTN]).2 := by
  have hinj : ∀ (b1 b2 : Button) (k' : String),
      (fun x => if x = Button.A_BTN then some "a" else none) b1 = some k' →
      (fun x => if x = Button.A_BTN then some "a" else none) b2 = some k' →
      b1 = b2 := by
    intro b1 b2 k' h1 h2
    by_cases e1 : b1 = Button.A_BTN <;> by_cases e2 : b2 = Button.A_BTN <;>
      simp [e1, e2] at h1 h2 ⊢
  exact ⟨hinj, by decide,
    c6_no_release_after_press
      (fun x => if x = Button.A_BTN then some "a" else none) (1/5) 1
      ⟨[Button.A_BTN], ["a"], []⟩ [Button.A_BTN] "a" hinj (by decide)⟩

/-- C10 witness: `next_index` of a parsed two-byte sub-message is 2, and
a terminating scan (offset past the end) counted 0 ≤ 1 parses. -/
theorem c10_next_index_amended_witness :
    parse_analog_message [0x1a, 0x00]
        = .ok (some ⟨some 0, some 0, 2⟩) ∧
    (⟨some 0, some 0, 2⟩ : AnalogData).next_index
        = ([0x1a, 0x00] : List ℕ).length ∧
    analogLoop [0x15] 7 1 = (0, some (.ok ())) ∧ (0 : ℕ) ≤ 1 :=
  ⟨by decide,
   c10_next_index_amended.1 [0x1a, 0x00] ⟨some 0, some 0, 2⟩ (by decide),
   by decide,
   c10_next_index_amended.2 [0x15] 7 1 0 (.ok ()) (by decide)⟩

end ZwiftRide
